import Mathlib

/-!
Verification of the mentraflow-backend specification against a shallow
embedding of the repository's Python source.

Conventions used throughout:
* Python strings are modelled as `List Char` where character-level operations
  matter: chunking slices, and the flashcard `strip()`/`upper()`/`lower()`
  (`pyStrip`/`pyUpper`/`pyLower`); identifiers, mode names, reason codes and
  fixed messages are Lean `String`s.
* Python floats are modelled as exact rationals `ℚ`; every claim settled here
  depends only on comparisons and clamping of such values, not on binary
  floating-point rounding.
* Python `int` is modelled as `ℤ` (or `ℕ` where the source value is a length
  or an index, hence non-negative); `int(x)` on a float is truncation toward
  zero.
* Fallible code (`raise ValueError`) is modelled with `Except`.
-/

namespace MentraFlow

/-! ### Chunking service (`app/services/chunking_service.py`) -/

/-- `text[s:e]` for a character list: Python slice semantics. -/
def slice (text : List Char) (s e : ℕ) : List Char :=
  (text.drop s).take (e - s)

/-- The `while start < text_length` loop body of
`ChunkingService._recursive_chunk`, embedded with the iteration budget
(`max_iterations - iteration`) as explicit fuel.  One unit of fuel is consumed
per loop iteration; fuel `0` with `start < L` corresponds to
`iteration > max_iterations`, which raises in the source. -/
def chunkLoop (C O L : ℕ) (text : List Char) :
    ℕ → ℕ → List (ℕ × ℕ × List Char) → Except String (List (ℕ × ℕ × List Char))
  | 0, start, chunks =>
    if start < L then .error "Chunking exceeded max iterations. Possible infinite loop."
    else .ok chunks
  | fuel + 1, start, chunks =>
    if start < L then
      if min (start + C) L - O ≤ start then
        .ok (chunks ++ [(start, min (start + C) L, slice text start (min (start + C) L))])
      else
        chunkLoop C O L text fuel (min (start + C) L - O)
          (chunks ++ [(start, min (start + C) L, slice text start (min (start + C) L))])
    else .ok chunks

/-- `ChunkingService._recursive_chunk(text, chunk_size, overlap)`:
guard `overlap >= chunk_size`, then run the windowing loop with
`max_iterations = text_length // step_size + 10`. -/
def _recursive_chunk (text : List Char) (chunk_size : ℕ := 800) (overlap : ℕ := 120) :
    Except String (List (ℕ × ℕ × List Char)) :=
  if chunk_size ≤ overlap then
    .error ("Overlap (" ++ toString overlap ++ ") must be less than chunk_size ("
      ++ toString chunk_size ++ ")")
  else
    chunkLoop chunk_size overlap text.length text
      (text.length / (chunk_size - overlap) + 10) 0 []

/-- The non-overlapping portions of a window list: the first window's full
content followed by each later window's content with its first `O`
(overlapped) characters removed. -/
def flatChunks (O : ℕ) : List (ℕ × ℕ × List Char) → List Char
  | [] => []
  | w :: rest => w.2.2 ++ (rest.map (fun v => v.2.2.drop O)).flatten

/-- Modelled from the claim's words (C1): windows `[start, min(start+C, L))`
for `start` beginning at `0` and advancing by `C − O` each step, stopping once
a window reaches `L`.  The fuel argument is only a termination device; under
the claim's hypothesis `O < C` every step advances, so `L + 1` units never run
out. -/
def claimWindowsAux (C O L : ℕ) (text : List Char) :
    ℕ → ℕ → List (ℕ × ℕ × List Char)
  | 0, _ => []
  | fuel + 1, start =>
    if start < L then
      let e := min (start + C) L
      (start, e, slice text start e) ::
        (if e = L then [] else claimWindowsAux C O L text fuel (start + (C - O)))
    else []

/-- The window list described by claim C1's own words. -/
def claimWindows (C O : ℕ) (text : List Char) : List (ℕ × ℕ × List Char) :=
  claimWindowsAux C O text.length text (text.length + 1) 0

lemma slice_append (text : List Char) {s e l : ℕ} (hse : s ≤ e) (hel : e ≤ l) :
    slice text s e ++ slice text e l = slice text s l := by
  unfold slice
  have hd : text.drop e = (text.drop s).drop (e - s) := by
    rw [List.drop_drop]
    congr 1
    omega
  rw [hd, ← List.take_add]
  congr 1
  omega

lemma slice_drop (text : List Char) (s e O : ℕ) :
    (slice text s e).drop O = slice text (s + O) e := by
  unfold slice
  rw [List.drop_take, List.drop_drop]
  congr 1
  omega

lemma slice_length (text : List Char) (s e : ℕ) :
    (slice text s e).length = min (e - s) (text.length - s) := by
  unfold slice
  rw [List.length_take, List.length_drop]

lemma chunkLoop_of_not_lt (C O L : ℕ) (text : List Char) (fuel start : ℕ)
    (chunks : List (ℕ × ℕ × List Char)) (h : ¬ start < L) :
    chunkLoop C O L text fuel start chunks = .ok chunks := by
  cases fuel <;> simp [chunkLoop, h]

/-- The window-overlap relation between two consecutive windows: the earlier
window's end is exactly `O` past the later window's start, starts strictly
advance, and ends are monotone. -/
def overlapsBy (O : ℕ) (a b : ℕ × ℕ × List Char) : Prop :=
  a.2.1 = b.1 + O ∧ a.1 < b.1 ∧ a.2.1 ≤ b.2.1

/-- Main loop invariant for `_recursive_chunk`'s window loop: with `O < C`,
enough fuel and `start < L`, the loop succeeds and appends a window list that
starts at `start`, has every window of the form `[s, min(s+C, L))` with its
text slice, ends exactly at `L`, chains with overlap `O`, whose non-overlapping
portions concatenate to `text[start:L]`, which covers `[start, L)`, and whose
length is bounded by `(L - start - 1) / (C - O) + 2`. -/
lemma chunkLoop_spec (C O : ℕ) (text : List Char) (hO : O < C) :
    ∀ fuel start chunks,
      start < text.length →
      text.length + (C - O) ≤ start + fuel * (C - O) →
      ∃ tail,
        chunkLoop C O text.length text fuel start chunks = .ok (chunks ++ tail) ∧
        (∃ c rest, tail = (start, min (start + C) text.length, c) :: rest) ∧
        (∀ w ∈ tail, w.2.1 = min (w.1 + C) text.length ∧
            w.2.2 = slice text w.1 w.2.1 ∧ w.1 < w.2.1) ∧
        tail.getLast?.map (fun w => w.2.1) = some text.length ∧
        List.Chain' (overlapsBy O) tail ∧
        flatChunks O tail = slice text start text.length ∧
        (∀ i, start ≤ i → i < text.length → ∃ w ∈ tail, w.1 ≤ i ∧ i < w.2.1) ∧
        tail.length ≤ (text.length - start - 1) / (C - O) + 2 := by
  intro fuel
  induction fuel with
  | zero =>
    intro start chunks hs hf
    rw [Nat.zero_mul] at hf
    omega
  | succ f ih =>
    intro start chunks hs hf
    rw [Nat.succ_mul] at hf
    by_cases hbr : min (start + C) text.length - O ≤ start
    · -- break branch: next_start <= start, so the window reached L
      have heL : min (start + C) text.length = text.length := by
        rcases Nat.le_total (start + C) text.length with h | h
        · rw [Nat.min_eq_left h] at hbr; omega
        · exact Nat.min_eq_right h
      refine ⟨[(start, text.length, slice text start text.length)], ?_, ?_, ?_, ?_, ?_,
        ?_, ?_, ?_⟩
      · rw [chunkLoop, if_pos hs, if_pos hbr, heL]
      · exact ⟨slice text start text.length, [], by rw [heL]⟩
      · intro w hw
        rcases List.mem_singleton.mp hw with rfl
        exact ⟨(show (text.length : ℕ) = min (start + C) text.length from heL.symm), rfl, hs⟩
      · simp
      · simp [List.chain'_singleton]
      · simp only [flatChunks, List.map_nil, List.flatten_nil, List.append_nil]
      · intro i hsi hiL
        exact ⟨_, List.mem_singleton.mpr rfl, hsi, hiL⟩
      · simp only [List.length_cons, List.length_nil]
        exact le_trans one_le_two (Nat.le_add_left 2 _)
    · -- continue branch: recurse at next_start = min(start+C, L) - O
      push_neg at hbr
      rcases Nat.lt_or_ge (start + C) text.length with hA | hB
      · -- e = start + C < L : a full-step window, use the IH
        have he : min (start + C) text.length = start + C := Nat.min_eq_left (le_of_lt hA)
        rw [he] at hbr
        have hnext : start + C - O = start + (C - O) := by omega
        have hnextL : start + (C - O) < text.length := by omega
        have hf' : text.length + (C - O) ≤ start + (C - O) + f * (C - O) := by omega
        obtain ⟨tail', heq', hhead', hall', hlast', hchain', hflat', hcover', hlen'⟩ :=
          ih (start + (C - O)) (chunks ++ [(start, start + C, slice text start (start + C))])
            hnextL hf'
        obtain ⟨c', rest', htail'⟩ := hhead'
        have hW : (start + (C - O), min (start + (C - O) + C) text.length, c') ∈ tail' := by
          rw [htail']; exact List.mem_cons_self _ _
        have hWfacts := hall' _ hW
        have hc' : c' = slice text (start + (C - O)) (min (start + (C - O) + C) text.length) :=
          hWfacts.2.1
        have hemin : start + (C - O) + O ≤ min (start + (C - O) + C) text.length := by
          refine le_min (by omega) (by omega)
        refine ⟨(start, start + C, slice text start (start + C)) :: tail', ?_, ?_, ?_, ?_, ?_,
          ?_, ?_, ?_⟩
        · rw [chunkLoop, if_pos hs, he, if_neg (by omega), hnext, heq']
          simp
        · exact ⟨_, tail', by rw [he]⟩
        · intro w hw
          rcases List.mem_cons.mp hw with rfl | hw'
          · exact ⟨(show start + C = min (start + C) text.length from he.symm), rfl,
              show start < start + C by omega⟩
          · exact hall' w hw'
        · rw [htail', List.getLast?_cons_cons, ← htail', hlast']
        · rw [htail', List.chain'_cons]
          refine ⟨⟨?_, ?_, ?_⟩, htail' ▸ hchain'⟩
          · show start + C = start + (C - O) + O
            omega
          · show start < start + (C - O)
            omega
          · show start + C ≤ min (start + (C - O) + C) text.length
            exact le_min (by omega) (by omega)
        · -- flatChunks: head slice ++ dropped-overlap tail reconstructs [start, L)
          have hlenc' : O ≤ c'.length := by
            rw [hc', slice_length]
            omega
          have hstep : (tail'.map (fun v => v.2.2.drop O)).flatten
              = slice text (start + C) text.length := by
            rw [htail', List.map_cons, List.flatten_cons]
            rw [htail'] at hflat'
            simp only [flatChunks] at hflat'
            calc c'.drop O ++ (rest'.map (fun v => v.2.2.drop O)).flatten
                = (c' ++ (rest'.map (fun v => v.2.2.drop O)).flatten).drop O :=
                  (List.drop_append_of_le_length hlenc').symm
              _ = (slice text (start + (C - O)) text.length).drop O := by rw [hflat']
              _ = slice text (start + (C - O) + O) text.length := slice_drop _ _ _ _
              _ = slice text (start + C) text.length := by
                  rw [show start + (C - O) + O = start + C from by omega]
          simp only [flatChunks]
          rw [hstep]
          exact slice_append text (by omega) (by omega)
        · intro i hsi hiL
          rcases Nat.lt_or_ge i (start + C) with hi | hi
          · exact ⟨_, List.mem_cons_self _ _, hsi, hi⟩
          · obtain ⟨w, hw, h1, h2⟩ := hcover' i (by omega) hiL
            exact ⟨w, List.mem_cons_of_mem _ hw, h1, h2⟩
        · simp only [List.length_cons]
          have hsplit : text.length - start - 1
              = (text.length - (start + (C - O)) - 1) + (C - O) := by
            omega
          rw [hsplit, Nat.add_div_right _ (show 0 < C - O by omega)]
          omega
      · -- L <= start + C : the window reaches L but next_start still > start
        have he : min (start + C) text.length = text.length := Nat.min_eq_right hB
        rw [he] at hbr
        rcases Nat.eq_zero_or_pos O with hO0 | hOpos
        · -- O = 0: next_start = L, the recursive call returns immediately
          subst hO0
          refine ⟨[(start, text.length, slice text start text.length)], ?_, ?_, ?_, ?_, ?_,
            ?_, ?_, ?_⟩
          · rw [chunkLoop, if_pos hs, he, if_neg (by omega),
              chunkLoop_of_not_lt _ _ _ _ _ _ _ (by omega)]
          · exact ⟨_, [], by rw [he]⟩
          · intro w hw
            rcases List.mem_singleton.mp hw with rfl
            exact ⟨(show (text.length : ℕ) = min (start + 0 + C) text.length by
              rw [Nat.add_zero, he]), rfl, hs⟩
          · simp
          · simp [List.chain'_singleton]
          · simp only [flatChunks, List.map_nil, List.flatten_nil, List.append_nil]
          · intro i hsi hiL
            exact ⟨_, List.mem_singleton.mpr rfl, hsi, hiL⟩
          · simp
        · -- O > 0: one more short trailing window [L - O, L), then break
          have hnextL : text.length - O < text.length := by omega
          have he2 : min (text.length - O + C) text.length = text.length :=
            Nat.min_eq_right (by omega)
          refine ⟨[(start, text.length, slice text start text.length),
            (text.length - O, text.length, slice text (text.length - O) text.length)],
            ?_, ?_, ?_, ?_, ?_, ?_, ?_, ?_⟩
          · rw [chunkLoop, if_pos hs, he, if_neg (by omega)]
            cases f with
            | zero => exfalso; omega
            | succ f' =>
              rw [chunkLoop, if_pos hnextL, he2, if_pos (le_refl _)]
              simp
          · exact ⟨_, [(text.length - O, text.length,
              slice text (text.length - O) text.length)], by rw [he]⟩
          · intro w hw
            rcases List.mem_cons.mp hw with rfl | hw'
            · exact ⟨(show (text.length : ℕ) = min (start + C) text.length from he.symm),
                rfl, hs⟩
            · rcases List.mem_singleton.mp hw' with rfl
              exact ⟨(show (text.length : ℕ) = min (text.length - O + C) text.length from
                he2.symm), rfl, hnextL⟩
          · simp
          · refine List.chain'_cons.mpr ⟨⟨?_, ?_, ?_⟩, List.chain'_singleton _⟩
            · show (text.length : ℕ) = text.length - O + O
              omega
            · show start < text.length - O
              omega
            · show (text.length : ℕ) ≤ text.length
              exact le_refl _
          · simp only [flatChunks, List.map_cons, List.map_nil, List.flatten_cons,
              List.flatten_nil, List.append_nil]
            rw [slice_drop, show text.length - O + O = text.length from by omega]
            simp [slice]
          · intro i hsi hiL
            exact ⟨_, List.mem_cons_self _ _, hsi, hiL⟩
          · simp only [List.length_cons, List.length_nil]
            exact Nat.le_add_left _ _

lemma fuel_sufficient (L C O : ℕ) (hO : O < C) :
    L + (C - O) ≤ (L / (C - O) + 10) * (C - O) := by
  have hd : 0 < C - O := by omega
  have h3 := Nat.div_add_mod L (C - O)
  have h4 := Nat.mod_lt L hd
  rw [Nat.add_mul, Nat.mul_comm (L / (C - O)) (C - O)]
  omega

/-- C1 (amended): with `0 ≤ O < C`, `_recursive_chunk` succeeds and returns
windows each of the form `[s, min(s+C, L))` carrying the corresponding text
slice, starting at `0`, ending exactly at `L`, consecutive windows overlapping
by exactly `O` characters with strictly advancing starts, covering every
position of `[0, L)`, and whose non-overlapping portions concatenate back to
the text. -/
theorem recursive_chunk_windows (text : List Char) (C O : ℕ) (hO : O < C) :
    ∃ l, _recursive_chunk text C O = .ok l ∧
      (∀ w ∈ l, w.2.1 = min (w.1 + C) text.length ∧
        w.2.2 = slice text w.1 w.2.1 ∧ w.1 < w.2.1) ∧
      (text ≠ [] → l.head?.map (fun w => w.1) = some 0) ∧
      (text ≠ [] → l.getLast?.map (fun w => w.2.1) = some text.length) ∧
      List.Chain' (overlapsBy O) l ∧
      (∀ i < text.length, ∃ w ∈ l, w.1 ≤ i ∧ i < w.2.1) ∧
      flatChunks O l = text := by
  rw [_recursive_chunk, if_neg (by omega)]
  rcases List.eq_nil_or_concat text with hnil | hne
  · subst hnil
    refine ⟨[], ?_, ?_, ?_, ?_, ?_, ?_, ?_⟩
    · exact chunkLoop_of_not_lt _ _ _ _ _ _ _ (by simp)
    · simp
    · simp
    · simp
    · simp
    · simp
    · simp [flatChunks]
  · have hlen : 0 < text.length := by
      rcases hne with ⟨l2, a, rfl⟩
      simp
    obtain ⟨tail, heq, hhead, hall, hlast, hchain, hflat, hcover, hlenb⟩ :=
      chunkLoop_spec C O text hO (text.length / (C - O) + 10) 0 [] hlen
        (by simpa using fuel_sufficient text.length C O hO)
    refine ⟨tail, by simpa using heq, hall, ?_, fun _ => hlast, hchain, ?_, ?_⟩
    · intro _
      obtain ⟨c, rest, rfl⟩ := hhead
      simp
    · intro i hi
      exact hcover i (Nat.zero_le i) hi
    · rw [hflat]
      simp [slice]

/-- C1 counterexample: on a 10-character text with `C = 5`, `O = 2`, the code
produces four windows (the last being the extra trailing window `[8, 10)`),
not the three windows described by the claim's stopping rule. -/
theorem recursive_chunk_claim_counterexample :
    _recursive_chunk (List.replicate 10 'a') 5 2 ≠
      Except.ok (claimWindows 5 2 (List.replicate 10 'a')) :=
  fun h => absurd (congrArg (fun x => (Except.toOption x).map List.length) h) (by decide)

/-- C1 witness: the amended theorem applied to a concrete 10-character text
with chunk size 5 and overlap 2. -/
theorem recursive_chunk_windows_witness :
    ∃ l, _recursive_chunk (List.replicate 10 'a') 5 2 = .ok l ∧
      (∀ w ∈ l, w.2.1 = min (w.1 + 5) (List.replicate 10 'a').length ∧
        w.2.2 = slice (List.replicate 10 'a') w.1 w.2.1 ∧ w.1 < w.2.1) ∧
      (List.replicate 10 'a' ≠ [] → l.head?.map (fun w => w.1) = some 0) ∧
      (List.replicate 10 'a' ≠ [] →
        l.getLast?.map (fun w => w.2.1) = some (List.replicate 10 'a').length) ∧
      List.Chain' (overlapsBy 2) l ∧
      (∀ i < (List.replicate 10 'a').length, ∃ w ∈ l, w.1 ≤ i ∧ i < w.2.1) ∧
      flatChunks 2 l = List.replicate 10 'a' :=
  recursive_chunk_windows (List.replicate 10 'a') 5 2 (by decide)

/-- C8: `overlap ≥ chunk_size` raises the configuration `ValueError`
immediately, and with `O < C` the loop terminates successfully within
`L / (C − O) + 2` windows (in particular the `max_iterations` guard never
fires). -/
theorem recursive_chunk_guard (text : List Char) (C O : ℕ) :
    (C ≤ O → _recursive_chunk text C O =
      .error ("Overlap (" ++ toString O ++ ") must be less than chunk_size ("
        ++ toString C ++ ")")) ∧
    (O < C → ∃ l, _recursive_chunk text C O = .ok l ∧
      l.length ≤ text.length / (C - O) + 2) := by
  constructor
  · intro h
    rw [_recursive_chunk, if_pos h]
  · intro hO
    rw [_recursive_chunk, if_neg (by omega)]
    by_cases hlen : 0 < text.length
    · obtain ⟨tail, heq, _, _, _, _, _, _, hlenb⟩ :=
        chunkLoop_spec C O text hO (text.length / (C - O) + 10) 0 [] hlen
          (by simpa using fuel_sufficient text.length C O hO)
      refine ⟨tail, by simpa using heq, le_trans hlenb ?_⟩
      have : text.length - 0 - 1 ≤ text.length := by omega
      exact Nat.add_le_add_right (Nat.div_le_div_right this) 2
    · refine ⟨[], chunkLoop_of_not_lt _ _ _ _ _ _ _ (by omega), by simp⟩

/-- C8 witness: the guard theorem applied at `C = 3, O = 7` (error) and at
`C = 5, O = 2` on a concrete 10-character text (success with bounded length). -/
theorem recursive_chunk_guard_witness :
    _recursive_chunk (List.replicate 10 'a') 3 7 =
      .error ("Overlap (" ++ toString 7 ++ ") must be less than chunk_size ("
        ++ toString 3 ++ ")") ∧
    ∃ l, _recursive_chunk (List.replicate 10 'a') 5 2 = .ok l ∧
      l.length ≤ (List.replicate 10 'a').length / (5 - 2) + 2 :=
  ⟨(recursive_chunk_guard (List.replicate 10 'a') 3 7).1 (by decide),
    (recursive_chunk_guard (List.replicate 10 'a') 5 2).2 (by decide)⟩

/-! ### SRS scheduler (`app/services/flashcard_service.py`) -/

/-- `FlashcardSRSState` row: all columns nullable, timestamps in seconds. -/
structure FlashcardSRSState where
  interval_days : Option ℤ
  ease_factor : Option ℚ
  repetitions : Option ℤ
  lapses : Option ℤ
  due_at : Option ℚ
  last_reviewed_at : Option ℚ
deriving DecidableEq

/-- The concrete dict returned by `_calculate_srs_update`. -/
structure SRSUpdate where
  interval_days : ℤ
  ease_factor : ℚ
  repetitions : ℤ
  lapses : ℤ
deriving DecidableEq

/-- Python `x or 0` for a nullable int column (`None` and `0` are both falsy
and both map to `0`). -/
def pyOrInt : Option ℤ → ℤ
  | none => 0
  | some v => v

/-- Python `x or INITIAL_EASE` for the nullable ease column: `None` and `0.0`
are falsy and map to the default `2.5`. -/
def pyOrEase : Option ℚ → ℚ
  | none => 2.5
  | some e => if e = 0 then 2.5 else e

/-- Python `int(x)` on a float: truncation toward zero. -/
def intTrunc (q : ℚ) : ℤ :=
  if 0 ≤ q then ⌊q⌋ else ⌈q⌉

/-- `FlashcardService._calculate_srs_update(rating, current_state)`:
the SM-2 variant. -/
def _calculate_srs_update : ℤ → Option FlashcardSRSState → SRSUpdate
  | rating, none =>
    if 3 ≤ rating then
      { interval_days := 1, ease_factor := 2.5, repetitions := 1, lapses := 0 }
    else
      { interval_days := 0, ease_factor := 2.5, repetitions := 0, lapses := 1 }
  | rating, some cs =>
    let ease := pyOrEase cs.ease_factor
    let interval := pyOrInt cs.interval_days
    let repetitions := pyOrInt cs.repetitions
    let lapses := pyOrInt cs.lapses
    if 3 ≤ rating then
      let new_interval :=
        if repetitions = 0 then 1
        else if repetitions = 1 then 6
        else intTrunc ((interval : ℚ) * ease)
      if rating = 4 then
        { interval_days := intTrunc ((new_interval : ℚ) * 1.2)
          ease_factor := min (ease + 0.1 * 1.5) 2.5
          repetitions := repetitions + 1
          lapses := lapses }
      else
        { interval_days := new_interval
          ease_factor := min (ease + 0.1) 2.5
          repetitions := repetitions + 1
          lapses := lapses }
    else
      { interval_days := 0
        ease_factor := max (ease - 0.1) 1.3
        repetitions := 0
        lapses := lapses + 1 }

/-- Re-wrap an update dict as the stored SRS row (as `record_review` does). -/
def updToState (u : SRSUpdate) : FlashcardSRSState :=
  { interval_days := some u.interval_days
    ease_factor := some u.ease_factor
    repetitions := some u.repetitions
    lapses := some u.lapses
    due_at := none
    last_reviewed_at := none }

/-- One review step over the optional accumulated state. -/
def srsStep (acc : Option SRSUpdate) (g : ℤ) : Option SRSUpdate :=
  some (_calculate_srs_update g (acc.map updToState))

/-- Fold a grade sequence over the scheduler, starting from a new card
(no previous state). -/
def reviewFold (gs : List ℤ) : Option SRSUpdate :=
  gs.foldl srsStep none

/-- C2 counterexample: on previous state
`{interval=6, ease=2.0, repetitions=1, lapses=0}` and grade 3, the code
returns `interval_days = 6` (the `repetitions == 1` branch), not
`12 = 6 × 2.0`. -/
theorem srs_repeated_success_counterexample :
    ¬ (_calculate_srs_update 3
        (some ⟨some 6, some 2, some 1, some 0, none, none⟩)).interval_days = 12 := by
  decide

/-- C2 (amended): on previous state
`{interval=6, ease=2.0, repetitions=1, lapses=0}` and grade 3, the new state
is `interval_days = 6` (second successful repetition uses the fixed 6-day
interval; `interval × ease` only applies from `repetitions ≥ 2`),
`ease_factor = 2.1`, `repetitions = 2` (and `lapses = 0`). -/
theorem srs_repeated_success :
    _calculate_srs_update 3 (some ⟨some 6, some 2, some 1, some 0, none, none⟩)
      = { interval_days := 6, ease_factor := 21/10, repetitions := 2, lapses := 0 } := by
  simp only [_calculate_srs_update, pyOrEase, pyOrInt]
  norm_num [min_def]


lemma ease_clamp_up (e x : ℚ) (h1 : 1.3 ≤ e) (hx : 0 ≤ x) :
    1.3 ≤ min (e + x) 2.5 ∧ min (e + x) 2.5 ≤ 2.5 :=
  ⟨le_min (by linarith) (by norm_num), min_le_right _ _⟩

lemma ease_clamp_down (e : ℚ) (h2 : e ≤ 2.5) :
    1.3 ≤ max (e - 0.1) 1.3 ∧ max (e - 0.1) 1.3 ≤ 2.5 :=
  ⟨le_max_right _ _, max_le (by linarith) (by norm_num)⟩

lemma srs_ease_bounds_step (g : ℤ) (acc : Option SRSUpdate)
    (h : ∀ u, acc = some u → 1.3 ≤ u.ease_factor ∧ u.ease_factor ≤ 2.5) :
    1.3 ≤ (_calculate_srs_update g (acc.map updToState)).ease_factor ∧
      (_calculate_srs_update g (acc.map updToState)).ease_factor ≤ 2.5 := by
  cases acc with
  | none =>
    show 1.3 ≤ (_calculate_srs_update g none).ease_factor ∧
      (_calculate_srs_update g none).ease_factor ≤ 2.5
    simp only [_calculate_srs_update]
    by_cases h3 : 3 ≤ g
    · rw [if_pos h3]; norm_num
    · rw [if_neg h3]; norm_num
  | some u =>
    obtain ⟨h1, h2⟩ := h u rfl
    have hne : u.ease_factor ≠ 0 := by
      intro h0
      rw [h0] at h1
      norm_num at h1
    show 1.3 ≤ (_calculate_srs_update g (some (updToState u))).ease_factor ∧
      (_calculate_srs_update g (some (updToState u))).ease_factor ≤ 2.5
    simp only [_calculate_srs_update, updToState, pyOrEase, pyOrInt, if_neg hne]
    by_cases h3 : 3 ≤ g
    · rw [if_pos h3]
      by_cases h4 : g = 4
      · rw [if_pos h4]
        exact ease_clamp_up u.ease_factor (0.1 * 1.5) h1 (by norm_num)
      · rw [if_neg h4]
        exact ease_clamp_up u.ease_factor 0.1 h1 (by norm_num)
    · rw [if_neg h3]
      exact ease_clamp_down u.ease_factor h2

lemma srs_reps_reset_step (g : ℤ) (s : Option FlashcardSRSState) (hg : g < 3) :
    (_calculate_srs_update g s).repetitions = 0 := by
  cases s <;>
    simp [_calculate_srs_update, if_neg (show ¬ 3 ≤ g by omega)]

lemma reviewFold_ease_aux :
    ∀ (gs : List ℤ) (acc : Option SRSUpdate),
      (∀ u, acc = some u → 1.3 ≤ u.ease_factor ∧ u.ease_factor ≤ 2.5) →
      ∀ u, gs.foldl srsStep acc = some u →
        1.3 ≤ u.ease_factor ∧ u.ease_factor ≤ 2.5 := by
  intro gs
  induction gs with
  | nil => intro acc h u hu; exact h u hu
  | cons g rest ih =>
    intro acc h u hu
    rw [List.foldl_cons] at hu
    refine ih (srsStep acc g) ?_ u hu
    intro v hv
    rw [srsStep] at hv
    rcases Option.some.inj hv with rfl
    exact srs_ease_bounds_step g acc h

lemma reviewFold_some_aux :
    ∀ (gs : List ℤ) (u0 : SRSUpdate), ∃ u, gs.foldl srsStep (some u0) = some u := by
  intro gs
  induction gs with
  | nil => intro u0; exact ⟨u0, rfl⟩
  | cons g rest ih =>
    intro u0
    rw [List.foldl_cons, srsStep]
    exact ih _

lemma reviewFold_last_aux :
    ∀ (gs : List ℤ) (acc : Option SRSUpdate) (g : ℤ) (u : SRSUpdate),
      gs.getLast? = some g → gs.foldl srsStep acc = some u → g < 3 →
      u.repetitions = 0 := by
  intro gs
  induction gs with
  | nil =>
    intro acc g u hlast
    simp at hlast
  | cons a rest ih =>
    intro acc g u hlast hfold hg
    cases rest with
    | nil =>
      simp only [List.getLast?_singleton, Option.some.injEq] at hlast
      subst hlast
      rw [List.foldl_cons, List.foldl_nil, srsStep] at hfold
      rcases Option.some.inj hfold with rfl
      exact srs_reps_reset_step a _ hg
    | cons b m =>
      rw [List.getLast?_cons_cons] at hlast
      rw [List.foldl_cons] at hfold
      exact ih _ g u hlast hfold hg

/-- C3: for every non-empty review sequence with grades in `{0,…,4}` starting
from a new card, the resulting ease factor stays in `[1.3, 2.5]`, and whenever
the last grade is below 3 the resulting repetitions counter is `0` (applying
the theorem to every prefix of a sequence gives the step-wise invariant). -/
theorem srs_sequence_invariants (gs : List ℤ) (hne : gs ≠ [])
    (hg : ∀ g ∈ gs, 0 ≤ g ∧ g ≤ 4) :
    ∃ u, reviewFold gs = some u ∧
      1.3 ≤ u.ease_factor ∧ u.ease_factor ≤ 2.5 ∧
      (∀ g, gs.getLast? = some g → g < 3 → u.repetitions = 0) := by
  cases gs with
  | nil => exact absurd rfl hne
  | cons a rest =>
    rw [reviewFold, List.foldl_cons, srsStep]
    obtain ⟨u, hu⟩ := reviewFold_some_aux rest (_calculate_srs_update a (Option.map updToState none))
    have hbase : ∀ v, some (_calculate_srs_update a (Option.map updToState none)) = some v →
        1.3 ≤ v.ease_factor ∧ v.ease_factor ≤ 2.5 := by
      intro v hv
      rcases Option.some.inj hv with rfl
      exact srs_ease_bounds_step a none (by intro w hw; exact absurd hw (by simp))
    have hbounds := reviewFold_ease_aux rest _ hbase u hu
    refine ⟨u, hu, hbounds.1, hbounds.2, ?_⟩
    intro g hlast hg3
    exact reviewFold_last_aux (a :: rest) none g u hlast
      (by rw [List.foldl_cons, srsStep]; exact hu) hg3

/-- C3 witness: the invariant theorem applied to the concrete grade
sequence `[4, 1]`. -/
theorem srs_sequence_invariants_witness :
    ∃ u, reviewFold [4, 1] = some u ∧
      1.3 ≤ u.ease_factor ∧ u.ease_factor ≤ 2.5 ∧
      (∀ g, ([4, 1] : List ℤ).getLast? = some g → g < 3 → u.repetitions = 0) :=
  srs_sequence_invariants [4, 1] (by simp) (by decide)

/-- Structured form of the `ValueError`s raised by `record_review`; the
`notDue` and `cooldownActive` constructors carry the values interpolated into
the source's error messages (the actual due time, the remaining wait). -/
inductive RecordReviewError where
  | invalidGrade (grade : ℤ)
  | flashcardNotFound
  | notDue (dueAt : ℚ)
  | cooldownActive (waitSeconds : ℤ)
deriving DecidableEq

/-- A `FlashcardReview` row as created by `record_review`. -/
structure FlashcardReview where
  rating : ℤ
  response_time_ms : Option ℤ
deriving DecidableEq

/-- The due-date guard: `if srs_state.due_at and srs_state.due_at > now`. -/
def dueGuard (s : FlashcardSRSState) (now : ℚ) : Option RecordReviewError :=
  match s.due_at with
  | some d => if now < d then some (.notDue d) else none
  | none => none

/-- The cooldown guard: `if srs_state.last_reviewed_at` and
`(now - last_reviewed_at).total_seconds() < cooldown_seconds`, carrying
`cooldown_seconds - int(time_since_review)`. -/
def cooldownGuard (s : FlashcardSRSState) (now : ℚ) (cooldown_seconds : ℤ) :
    Option RecordReviewError :=
  match s.last_reviewed_at with
  | some lr =>
    if now - lr < (cooldown_seconds : ℚ) then
      some (.cooldownActive (cooldown_seconds - intTrunc (now - lr)))
    else none
  | none => none

/-- The state/review written by `record_review` once all guards pass: both the
update-existing and the create-new branch store the same field values, with
`due_at = now + interval_days` (in days, i.e. `86400` seconds) when the new
interval is positive, else `now`. -/
def record_review_apply (srs_state : Option FlashcardSRSState) (now : ℚ) (grade : ℤ)
    (response_time_ms : Option ℤ) : FlashcardSRSState × FlashcardReview :=
  let u := _calculate_srs_update grade srs_state
  ({ interval_days := some u.interval_days
     ease_factor := some u.ease_factor
     repetitions := some u.repetitions
     lapses := some u.lapses
     due_at := some (if 0 < u.interval_days then now + (u.interval_days : ℚ) * 86400 else now)
     last_reviewed_at := some now },
   { rating := grade, response_time_ms := response_time_ms })

/-- `FlashcardService.record_review`: grade validation, flashcard lookup,
then (unless `force`, and only when an SRS state exists) the due-date check
followed by the cooldown check; on any error the exception propagates before
anything is written, so the stored state and review table are untouched —
modelled by `Except.error` carrying no new state. -/
def record_review (flashcardExists : Bool) (srs_state : Option FlashcardSRSState)
    (now : ℚ) (grade : ℤ) (response_time_ms : Option ℤ) (force : Bool)
    (cooldown_seconds : ℤ) :
    Except RecordReviewError (FlashcardSRSState × FlashcardReview) :=
  if grade < 0 ∨ 4 < grade then .error (.invalidGrade grade)
  else if flashcardExists = false then .error .flashcardNotFound
  else
    match force, srs_state with
    | false, some s =>
      match (dueGuard s now).orElse (fun _ => cooldownGuard s now cooldown_seconds) with
      | some e => .error e
      | none => .ok (record_review_apply srs_state now grade response_time_ms)
    | _, _ => .ok (record_review_apply srs_state now grade response_time_ms)

/-- C7: without `force`, on a card with an existing SRS state and a valid
grade, `record_review` fails with `notDue` (naming the stored due time)
whenever `due_at` is non-null and later than `now`, and fails with
`cooldownActive` (naming the remaining wait) whenever the due check passes but
less than `cooldown_seconds` has elapsed since `last_reviewed_at`; an error
result carries no new state or review row, so in both failure cases nothing is
recorded and the stored SRS state is unchanged. -/
theorem record_review_guards (s : FlashcardSRSState) (now : ℚ) (grade : ℤ)
    (rt : Option ℤ) (cd : ℤ) (hg : 0 ≤ grade ∧ grade ≤ 4) :
    (∀ d, s.due_at = some d → now < d →
      record_review true (some s) now grade rt false cd = .error (.notDue d)) ∧
    (∀ lr, (s.due_at = none ∨ ∃ d, s.due_at = some d ∧ d ≤ now) →
      s.last_reviewed_at = some lr → now - lr < (cd : ℚ) →
      record_review true (some s) now grade rt false cd
        = .error (.cooldownActive (cd - intTrunc (now - lr)))) := by
  have hgok : ¬ (grade < 0 ∨ 4 < grade) := by omega
  constructor
  · intro d hd hnow
    rw [record_review, if_neg hgok, if_neg (by simp)]
    have hdg : dueGuard s now = some (.notDue d) := by
      rw [dueGuard, hd]
      exact if_pos hnow
    rw [hdg]
    rfl
  · intro lr hdue hlr hwait
    rw [record_review, if_neg hgok, if_neg (by simp)]
    have hdg : dueGuard s now = none := by
      rcases hdue with hnone | ⟨d, hd, hdle⟩
      · rw [dueGuard, hnone]
      · rw [dueGuard, hd]
        exact if_neg (by linarith)
    have hcg : cooldownGuard s now cd = some (.cooldownActive (cd - intTrunc (now - lr))) := by
      rw [cooldownGuard, hlr]
      exact if_pos hwait
    rw [hdg, hcg]
    rfl

/-- C7 witness: the guard theorem applied at concrete inputs — a card due at
`t = 100` reviewed at `t = 50`, and a card last reviewed 10 s ago with the
default 30 s cooldown. -/
theorem record_review_guards_witness :
    record_review true (some ⟨none, none, none, none, some 100, none⟩) 50 3 none false 30
      = .error (.notDue 100) ∧
    record_review true (some ⟨none, none, none, none, none, some 40⟩) 50 3 none false 30
      = .error (.cooldownActive (30 - intTrunc (50 - 40))) :=
  ⟨(record_review_guards ⟨none, none, none, none, some 100, none⟩ 50 3 none 30
      (by norm_num)).1 100 rfl (by norm_num),
   (record_review_guards ⟨none, none, none, none, none, some 40⟩ 50 3 none 30
      (by norm_num)).2 40 (Or.inl rfl) rfl (by norm_num)⟩

/-! ### Study chat graph (`app/agents/graphs/study_chat_graph.py`)

Chunk/document UUIDs are modelled as plain strings (`uuid.UUID(x)`/`str(..)`
round-trip canonicalization is not modelled; the validation logic compares the
same canonical strings on both sides, so membership is unaffected). -/

/-- `app/agents/types.Citation`. -/
structure Citation where
  chunk_id : String
  document_id : String
  chunk_index : ℕ
  score : ℚ
deriving DecidableEq

/-- `app/agents/types.SuggestedNote`. -/
structure SuggestedNote where
  title : String
  body : String
  document_id : Option String
deriving DecidableEq

/-- `ChatCitation` (LLM structured output): a cited chunk id. -/
structure ChatCitation where
  chunk_id : String
deriving DecidableEq

/-- `ChatResponse` (LLM structured output). -/
structure ChatResponse where
  answer : String
  citations : List ChatCitation
  suggested_note_title : Option String
  suggested_note_body : Option String
  confidence_score : Option ℚ
  insufficient_info : Bool
deriving DecidableEq

/-- One element of the retrieval collaborator's result list. -/
structure SearchResult where
  chunk_id : String
  document_id : String
  chunk_index : ℕ
  content : String
  score : ℚ
deriving DecidableEq

/-- `StudyChatState` (the graph's TypedDict), restricted to the fields the
chat nodes read or write; `chunk_id_to_citation` is the dict as a lookup
function. -/
structure StudyChatState where
  input_document_id : Option String
  search_results : List SearchResult
  context : String
  retrieved_chunk_ids : List String
  chunk_id_to_citation : String → Option Citation
  llm_response : Option ChatResponse
  valid_citations : List Citation
  suggested_note : Option SuggestedNote
  confidence_score : ℚ
  insufficient_info : Bool
  answer : String
  error : Option String
  status : String

/-- The `retrieved_chunk_ids` list built by `_search_chunks`: ids in result
order, first occurrence kept (`if chunk_id_str not in retrieved_chunk_ids`). -/
def buildRetrievedChunkIds (results : List SearchResult) : List String :=
  results.foldl (fun acc r => if r.chunk_id ∈ acc then acc else acc ++ [r.chunk_id]) []

/-- The `chunk_id_to_citation` dict built by `_search_chunks`: later results
overwrite earlier entries for the same id. -/
def buildChunkIdToCitation (results : List SearchResult) : String → Option Citation :=
  results.foldl
    (fun m r => fun k =>
      if k = r.chunk_id then some ⟨r.chunk_id, r.document_id, r.chunk_index, r.score⟩
      else m k)
    (fun _ => none)

/-- `_search_chunks`, given the retrieval collaborator's return value. -/
def _search_chunks (results : List SearchResult) (st : StudyChatState) : StudyChatState :=
  if results = [] then
    { st with search_results := [], status := "searching" }
  else
    { st with
      search_results := results
      context := String.intercalate "\n\n" (results.map (fun r =>
        "[Chunk ID: " ++ r.chunk_id ++ ", Index: " ++ toString r.chunk_index ++ "]:\n"
          ++ r.content))
      retrieved_chunk_ids := buildRetrievedChunkIds results
      chunk_id_to_citation := buildChunkIdToCitation results
      status := "searching" }

/-- The citation filter loop of `_validate_citations`: keep
`chunk_id_to_citation[id]` for each model citation whose id is in the
retrieved set; a missing dict entry (`KeyError`) drops the citation. -/
def collectValidCitations (citations : List ChatCitation) (retrieved : List String)
    (citMap : String → Option Citation) : List Citation :=
  citations.foldl
    (fun acc cit =>
      if cit.chunk_id ∈ retrieved then
        match citMap cit.chunk_id with
        | some c => acc ++ [c]
        | none => acc
      else acc)
    []

/-- The claim's derived-confidence formula (C9's words): `0.0` with no valid
citations; `0.8` when the valid-citation count is at least half the retrieved
count; `0.6` when any valid citations exist; else `0.3`. -/
def derivedConfidence (validCount resultCount : ℕ) : ℚ :=
  if validCount = 0 then 0.0
  else if (validCount : ℚ) ≥ (resultCount : ℚ) * 0.5 then 0.8
  else if 0 < validCount then 0.6
  else 0.3

/-- `_validate_citations`. -/
def _validate_citations (st : StudyChatState) : StudyChatState :=
  match st.llm_response with
  | none => { st with valid_citations := [], status := "validating" }
  | some resp =>
    let valid_citations :=
      collectValidCitations resp.citations st.retrieved_chunk_ids st.chunk_id_to_citation
    let confidence_score : ℚ :=
      match resp.confidence_score with
      | some c => c
      | none =>
        if valid_citations = [] then 0.0
        else if (valid_citations.length : ℚ) ≥ (st.search_results.length : ℚ) * 0.5 then 0.8
        else if 0 < valid_citations.length then 0.6
        else 0.3
    let insufficient_info := resp.insufficient_info || decide (confidence_score < 0.4)
    let suggested_note : Option SuggestedNote :=
      match resp.suggested_note_title, resp.suggested_note_body with
      | some t, some b =>
        if t = "" ∨ b = "" then none else some ⟨t, b, st.input_document_id⟩
      | _, _ => none
    { st with
      valid_citations := valid_citations
      suggested_note := suggested_note
      confidence_score := confidence_score
      insufficient_info := insufficient_info
      answer := resp.answer
      status := "validating" }

/-- `_build_output`: the empty-retrieval path returns the fixed no-context
answer with no citations; otherwise the validated fields pass through. -/
def _build_output (st : StudyChatState) : StudyChatState :=
  if st.search_results = [] then
    { st with
      answer := "I don't have enough context in your workspace yet to answer this question. Please ingest a document first by uploading it or providing its content."
      valid_citations := []
      suggested_note := none
      confidence_score := 0.0
      insufficient_info := true
      status := "completed" }
  else
    { st with status := "completed" }

/-- `_handle_error`: the error terminal returns the fixed retry answer with no
citations. -/
def _handle_error (st : StudyChatState) : StudyChatState :=
  { st with
    answer := "I'm sorry, I encountered an error processing your request. This might be due to a temporary service issue. Please try again in a moment."
    valid_citations := []
    suggested_note := none
    confidence_score := 0.0
    insufficient_info := true
    status := "failed" }

/-- The graph's routing after `search_chunks`: empty results go straight to
`build_output`; otherwise `generate_answer` stores the LLM response (here
injected as `resp`) and `validate_citations` then `build_output` run. -/
def studyChatRun (results : List SearchResult) (resp : Option ChatResponse)
    (st0 : StudyChatState) : StudyChatState :=
  let st1 := _search_chunks results st0
  if st1.search_results = [] then _build_output st1
  else _build_output (_validate_citations { st1 with llm_response := resp })

lemma buildChunkIdToCitation_sound (results : List SearchResult) :
    ∀ k c, buildChunkIdToCitation results k = some c → c.chunk_id = k := by
  rw [buildChunkIdToCitation]
  suffices h : ∀ (m0 : String → Option Citation),
      (∀ k c, m0 k = some c → c.chunk_id = k) →
      ∀ k c,
        (results.foldl (fun m r => fun k =>
          if k = r.chunk_id then some ⟨r.chunk_id, r.document_id, r.chunk_index, r.score⟩
          else m k) m0) k = some c → c.chunk_id = k by
    exact h (fun _ => none) (by intro k c hc; exact absurd hc (by simp))
  induction results with
  | nil => intro m0 h0; exact h0
  | cons r rest ih =>
    intro m0 h0 k c
    rw [List.foldl_cons]
    refine ih _ ?_ k c
    intro k2 c2 hc2
    by_cases hk : k2 = r.chunk_id
    · rw [if_pos hk] at hc2
      rcases Option.some.inj hc2 with rfl
      exact hk.symm
    · rw [if_neg hk] at hc2
      exact h0 k2 c2 hc2

lemma collectValidCitations_sound (citations : List ChatCitation)
    (retrieved : List String) (citMap : String → Option Citation)
    (hmap : ∀ k c, citMap k = some c → c.chunk_id = k) :
    ∀ c ∈ collectValidCitations citations retrieved citMap, c.chunk_id ∈ retrieved := by
  rw [collectValidCitations]
  suffices h : ∀ (acc : List Citation),
      (∀ c ∈ acc, c.chunk_id ∈ retrieved) →
      ∀ c ∈ citations.foldl (fun acc cit =>
        if cit.chunk_id ∈ retrieved then
          match citMap cit.chunk_id with
          | some c => acc ++ [c]
          | none => acc
        else acc) acc, c.chunk_id ∈ retrieved by
    exact h [] (by simp)
  induction citations with
  | nil => intro acc hacc; exact hacc
  | cons cit rest ih =>
    intro acc hacc c
    rw [List.foldl_cons]
    refine ih _ ?_ c
    intro c2 hc2
    by_cases hin : cit.chunk_id ∈ retrieved
    · rw [if_pos hin] at hc2
      rcases hmem : citMap cit.chunk_id with _ | c3
      · rw [hmem] at hc2
        exact hacc c2 hc2
      · rw [hmem] at hc2
        rcases List.mem_append.mp hc2 with h2 | h2
        · exact hacc c2 h2
        · rcases List.mem_singleton.mp h2 with rfl
          rw [hmap _ _ hmem]
          exact hin
    · rw [if_neg hin] at hc2
      exact hacc c2 hc2

/-- C4: on every study-chat path, every citation in the final output refers to
a chunk id in that run's retrieved chunk-id set: the validate node hard-filters
model citations against the retrieved set, the empty-retrieval output path
returns no citations, and the error path returns no citations. -/
theorem chat_citation_hard_filter (results : List SearchResult) (resp : Option ChatResponse)
    (st0 : StudyChatState) :
    (∀ c ∈ (studyChatRun results resp st0).valid_citations,
      c.chunk_id ∈ buildRetrievedChunkIds results) ∧
    (studyChatRun [] resp st0).valid_citations = [] ∧
    (∀ st, (_handle_error st).valid_citations = []) := by
  refine ⟨?_, ?_, ?_⟩
  · intro c hc
    by_cases hres : results = []
    · subst hres
      simp [studyChatRun, _search_chunks, _build_output] at hc
    · cases resp with
      | none =>
        simp [studyChatRun, _search_chunks, hres, _validate_citations, _build_output] at hc
      | some r =>
        simp [studyChatRun, _search_chunks, hres, _validate_citations, _build_output] at hc
        exact collectValidCitations_sound _ _ _ (buildChunkIdToCitation_sound results) c hc
  · simp [studyChatRun, _search_chunks, _build_output]
  · intro st
    rfl

/-- C9: in `_validate_citations`, when the model omits a confidence score the
derived score follows the citation-coverage heuristic (0.0 / 0.8 / 0.6 / 0.3
against the search-result count), and whatever the model reported,
`insufficient_info` is forced to `true` whenever the final confidence score is
below `0.4`. -/
theorem validate_citations_confidence (st : StudyChatState) (resp : ChatResponse)
    (hresp : st.llm_response = some resp) :
    (resp.confidence_score = none →
      (_validate_citations st).confidence_score =
        derivedConfidence (_validate_citations st).valid_citations.length
          st.search_results.length) ∧
    ((_validate_citations st).confidence_score < 0.4 →
      (_validate_citations st).insufficient_info = true) := by
  constructor
  · intro hconf
    simp only [_validate_citations, hresp, hconf]
    rw [derivedConfidence]
    by_cases hnil :
        collectValidCitations resp.citations st.retrieved_chunk_ids st.chunk_id_to_citation
          = []
    · rw [if_pos hnil, if_pos (by rw [hnil]; rfl)]
    · rw [if_neg hnil, if_neg (fun h => hnil (List.length_eq_zero.mp h))]
  · intro hlt
    simp only [_validate_citations, hresp] at hlt ⊢
    rw [decide_eq_true hlt, Bool.or_true]

/-- A concrete pre-validation chat state: two retrieved chunks, a response
citing one of them with no model confidence score. -/
def chatStateA : StudyChatState :=
  { input_document_id := none
    search_results := [⟨"c1", "d1", 0, "txt", 1⟩, ⟨"c2", "d1", 1, "txt2", 1⟩]
    context := ""
    retrieved_chunk_ids := buildRetrievedChunkIds
      [⟨"c1", "d1", 0, "txt", 1⟩, ⟨"c2", "d1", 1, "txt2", 1⟩]
    chunk_id_to_citation := buildChunkIdToCitation
      [⟨"c1", "d1", 0, "txt", 1⟩, ⟨"c2", "d1", 1, "txt2", 1⟩]
    llm_response := some ⟨"ans", [⟨"c1"⟩], none, none, none, false⟩
    valid_citations := []
    suggested_note := none
    confidence_score := 0
    insufficient_info := false
    answer := ""
    error := none
    status := "generating" }

/-- C9 witness: the confidence theorem applied to the concrete state
`chatStateA`, whose response omits the confidence score. -/
theorem validate_citations_confidence_witness :
    (_validate_citations chatStateA).confidence_score =
      derivedConfidence (_validate_citations chatStateA).valid_citations.length
        chatStateA.search_results.length :=
  (validate_citations_confidence chatStateA ⟨"ans", [⟨"c1"⟩], none, none, none, false⟩
    rfl).1 rfl

/-! ### Flashcard graph (`app/agents/graphs/flashcard_graph.py`)

Free-text card fields are modelled as `List Char` so that `str.strip()`,
`str.upper()` and `str.lower()` compute; mode names, card types and reason
codes are Lean `String`s. -/

/-- Python `str.upper()`, character-wise. -/
def pyUpper (s : List Char) : List Char := s.map Char.toUpper

/-- Python `str.lower()`, character-wise. -/
def pyLower (s : List Char) : List Char := s.map Char.toLower

/-- Python `str.strip()`: whitespace removed from both ends. -/
def pyStrip (s : List Char) : List Char :=
  ((s.dropWhile Char.isWhitespace).reverse.dropWhile Char.isWhitespace).reverse

/-- The four bare answer letters. -/
def letterList : List (List Char) := [['A'], ['B'], ['C'], ['D']]

/-- `FlashcardCard` (LLM structured output). -/
structure FlashcardCard where
  front : List Char
  back : List Char
  card_type : String
  options : Option (List (List Char))
  correct_answer : Option (List Char)
deriving DecidableEq

/-- The `card_data` dict built by `_generate_flashcards`; the `metadata`
sub-dict's two keys are inlined as optional fields, both `none` exactly when
no metadata dict was attached. -/
structure CardData where
  front : List Char
  back : List Char
  card_type : String
  options : Option (List (List Char))
  correct_answer : Option (List Char)
deriving DecidableEq

/-- `app/core/constants.FLASHCARD_MODE_TO_CARD_TYPE`. -/
def FLASHCARD_MODE_TO_CARD_TYPE : List (String × String) :=
  [("qa", "qa"), ("mcq", "mcq")]

/-- `FLASHCARD_MODE_TO_CARD_TYPE.get(mode, "qa")`. -/
def expectedCardType (mode : String) : String :=
  (FLASHCARD_MODE_TO_CARD_TYPE.lookup mode).getD "qa"

/-- The card-type coercion in `_generate_flashcards`: map the model's
`card_type` to the requested mode's expected type (the two inner branches keep
`card_type` only when it already equals the expected type). -/
def coerceCardType (mode card_type : String) : String :=
  if card_type ≠ expectedCardType mode then
    if mode = "qa" ∧ card_type = "qa" then card_type
    else if mode = "mcq" ∧ card_type = "mcq" then card_type
    else expectedCardType mode
  else card_type

/-- The per-card processing in `_generate_flashcards`: coerce `card_type`,
and for MCQ cards with truthy `options` and `correct_answer` normalize `back`
to a bare letter (keep `back.strip().upper()` when it is already one of A–D,
else use `correct_answer.upper()`) and attach the metadata. -/
def processCard (mode : String) (card : FlashcardCard) : CardData :=
  let card_type := coerceCardType mode card.card_type
  let base : CardData :=
    { front := card.front, back := card.back, card_type := card_type,
      options := none, correct_answer := none }
  match card.options, card.correct_answer with
  | some opts, some ca =>
    if card_type = "mcq" ∧ opts ≠ [] ∧ ca ≠ [] then
      { base with
        back :=
          if pyUpper (pyStrip card.back) ∈ letterList then pyUpper (pyStrip card.back)
          else pyUpper ca
        options := some opts
        correct_answer := some ca }
    else base
  | _, _ => base

/-- The per-option check loop inside the MCQ branch of `_validate_card`. -/
def mcqOptionReason (opts : List (List Char)) : Option String :=
  opts.findSome? (fun o =>
    if o = [] ∨ (pyStrip o).length < 3 then some "mcq_option_too_short"
    else if 200 < o.length then some "mcq_option_too_long"
    else none)

/-- `_validate_card(card, requested_mode)`: `(is_valid, reason_if_invalid)`. -/
def _validate_card (card : CardData) (requested_mode : String) : Bool × Option String :=
  if card.front = [] ∨ card.back = [] then (false, some "empty_field")
  else if card.card_type ≠ expectedCardType requested_mode then
    (false, some "card_type_mismatch")
  else if card.card_type = "mcq" then
    if card.options.getD [] = [] ∨ (card.options.getD []).length ≠ 4 then
      (false, some "mcq_invalid_options")
    else if card.correct_answer.getD [] ∉ letterList then
      (false, some "mcq_invalid_answer")
    else if pyUpper (pyStrip card.back) ≠ card.correct_answer.getD [] then
      (false, some "mcq_answer_mismatch")
    else
      match mcqOptionReason (card.options.getD []) with
      | some reason => (false, some reason)
      | none =>
        if 300 < card.front.length then (false, some "front_too_long")
        else if card.front.length < 10 then (false, some "front_too_short")
        else (true, none)
  else
    if 200 < card.front.length then (false, some "front_too_long")
    else if 300 < card.back.length then (false, some "back_too_long")
    else if card.front.length < 5 then (false, some "front_too_short")
    else if card.back.length < 5 then (false, some "back_too_short")
    else if pyLower (pyStrip card.front) = pyLower (pyStrip card.back) then
      (false, some "trivial_content")
    else if (pyLower (pyStrip card.front)).isPrefixOf (pyLower (pyStrip card.back)) then
      (false, some "repetitive_content")
    else (true, none)

lemma coerceCardType_eq_expected (mode ct : String) :
    coerceCardType mode ct = expectedCardType mode := by
  rw [coerceCardType]
  split_ifs with h1 h2 h3
  · rcases h2 with ⟨hm, hc⟩
    subst hm
    subst hc
    rfl
  · rcases h3 with ⟨hm, hc⟩
    subst hm
    subst hc
    rfl
  · rfl
  · exact not_not.mp h1

lemma processCard_card_type (mode : String) (card : FlashcardCard) :
    (processCard mode card).card_type = expectedCardType mode := by
  rcases card with ⟨f, b, ct, opts, ca⟩
  cases opts <;> cases ca <;>
    simp [processCard, apply_ite (fun c : CardData => c.card_type),
      coerceCardType_eq_expected]

lemma mcqOptionReason_eq_some (opts : List (List Char)) (r : String)
    (h : mcqOptionReason opts = some r) :
    r = "mcq_option_too_short" ∨ r = "mcq_option_too_long" := by
  induction opts with
  | nil => simp [mcqOptionReason] at h
  | cons o rest ih =>
    rw [mcqOptionReason, List.findSome?_cons] at h
    split at h
    · next b heq =>
      obtain rfl : b = r := Option.some.inj h
      split_ifs at heq
      · exact Or.inl (Option.some.inj heq).symm
      · exact Or.inr (Option.some.inj heq).symm
    · exact ih (by rw [mcqOptionReason]; exact h)

/-- C10: every card flowing from `_generate_flashcards` into validation has
its `card_type` coerced to the requested mode's expected type, so the
validator's "card_type_mismatch" rejection is unreachable for such cards —
they are only ever rejected for one of the other reason codes. -/
theorem card_type_mismatch_unreachable (mode : String) (card : FlashcardCard) :
    (_validate_card (processCard mode card) mode).2 ≠ some "card_type_mismatch" := by
  have hct := processCard_card_type mode card
  intro h
  rw [_validate_card, hct, if_neg (not_not_intro rfl)] at h
  split_ifs at h <;> try exact absurd h (by simp)
  all_goals
    rcases hfs : mcqOptionReason ((processCard mode card).options.getD []) with _ | r <;>
      rw [hfs] at h <;> simp at h
  all_goals
    (subst h
     rcases mcqOptionReason_eq_some _ _ hfs with h2 | h2 <;> simp at h2)

lemma validate_mcq_back (p : CardData) (ca : List Char) (hca : p.correct_answer = some ca)
    (hvalid : (_validate_card p "mcq").1 = true) :
    pyUpper (pyStrip p.back) = ca := by
  have hexp : expectedCardType "mcq" = "mcq" := rfl
  rw [_validate_card, hexp] at hvalid
  rw [hca] at hvalid
  simp only [Option.getD_some] at hvalid
  split_ifs at hvalid <;> simp_all

lemma validate_mcq_options_none (p : CardData) (hopt : p.options = none) :
    (_validate_card p "mcq").1 = false := by
  have hexp : expectedCardType "mcq" = "mcq" := rfl
  rw [_validate_card, hexp, hopt]
  simp only [Option.getD_none]
  split_ifs <;> simp_all

lemma letter_pyUpper_pyStrip (s : List Char) (h : s ∈ letterList) :
    pyUpper (pyStrip s) = s := by
  simp only [letterList, List.mem_cons, List.not_mem_nil, or_false] at h
  rcases h with rfl | rfl | rfl | rfl <;> decide

lemma letter_pyUpper (s : List Char) (h : s ∈ letterList) : pyUpper s = s := by
  simp only [letterList, List.mem_cons, List.not_mem_nil, or_false] at h
  rcases h with rfl | rfl | rfl | rfl <;> decide

/-- C5: for an MCQ candidate whose `correct_answer` is one of A–D, any card
that passes validation (and is therefore the card the pipeline persists) has
its `back` field equal to exactly that letter, whatever free text the model
put in `back`. -/
theorem mcq_back_normalized (card : FlashcardCard) (ca : List Char)
    (hca : card.correct_answer = some ca) (hmem : ca ∈ letterList)
    (hvalid : (_validate_card (processCard "mcq" card) "mcq").1 = true) :
    (processCard "mcq" card).back = ca := by
  rcases hopts : card.options with _ | l
  · have hp : (processCard "mcq" card).options = none := by
      simp [processCard, hopts, hca]
    rw [validate_mcq_options_none _ hp] at hvalid
    exact absurd hvalid (by simp)
  · by_cases hl : l = []
    · have hp : (processCard "mcq" card).options = none := by
        subst hl
        simp [processCard, hopts, hca]
      rw [validate_mcq_options_none _ hp] at hvalid
      exact absurd hvalid (by simp)
    · have hcane : ca ≠ [] := by
        intro h
        rw [h] at hmem
        simp [letterList] at hmem
      have hcond : coerceCardType "mcq" card.card_type = "mcq" ∧ l ≠ [] ∧ ca ≠ [] :=
        ⟨by rw [coerceCardType_eq_expected]; rfl, hl, hcane⟩
      have hp : processCard "mcq" card =
          { front := card.front,
            back :=
              if pyUpper (pyStrip card.back) ∈ letterList then pyUpper (pyStrip card.back)
              else pyUpper ca,
            card_type := coerceCardType "mcq" card.card_type,
            options := some l, correct_answer := some ca } := by
        simp only [processCard, hopts, hca]
        rw [if_pos hcond]
      by_cases hb : pyUpper (pyStrip card.back) ∈ letterList
      · have hback := validate_mcq_back (processCard "mcq" card) ca (by rw [hp]) hvalid
        have hback2 :
            pyUpper (pyStrip (if pyUpper (pyStrip card.back) ∈ letterList then
              pyUpper (pyStrip card.back) else pyUpper ca)) = ca := by
          rw [hp] at hback
          exact hback
        rw [if_pos hb, letter_pyUpper_pyStrip _ hb] at hback2
        have hbval : (processCard "mcq" card).back = pyUpper (pyStrip card.back) := by
          rw [hp]
          show (if pyUpper (pyStrip card.back) ∈ letterList then pyUpper (pyStrip card.back)
            else pyUpper ca) = pyUpper (pyStrip card.back)
          rw [if_pos hb]
        rw [hbval]
        exact hback2
      · have hbval : (processCard "mcq" card).back = pyUpper ca := by
          rw [hp]
          show (if pyUpper (pyStrip card.back) ∈ letterList then pyUpper (pyStrip card.back)
            else pyUpper ca) = pyUpper ca
          rw [if_neg hb]
        rw [hbval]
        exact letter_pyUpper ca hmem

/-- C5 witness: a concrete MCQ card whose model-written back is the free text
"b) Paris" but whose `correct_answer` is "B"; the processed card passes
validation and its persisted back is exactly "B". -/
theorem mcq_back_normalized_witness :
    (processCard "mcq"
      { front := "What is the capital of France today?".toList,
        back := "b) Paris".toList, card_type := "mcq",
        options := some ["Paris".toList, "Berlin".toList, "Rome".toList, "Madrid".toList],
        correct_answer := some ['B'] }).back = ['B'] :=
  mcq_back_normalized _ ['B'] rfl (by decide) (by decide)

/-! ### Knowledge-graph extraction (`app/agents/graphs/kg_graph.py`) -/

/-- One extracted concept (LLM structured output). -/
structure KGConcept where
  name : String
  description : String
  type : String
  confidence : ℚ
deriving DecidableEq

/-- One entry of `concepts_data` as built by `_prepare_concepts` (the
`metadata` dict's single `confidence` key inlined). -/
structure ConceptData where
  name : String
  description : String
  type : String
  confidence : ℚ
deriving DecidableEq

/-- `app/core/constants.MIN_CONCEPT_CONFIDENCE`. -/
def MIN_CONCEPT_CONFIDENCE : ℚ := 0.7

/-- `app/core/constants.MAX_CONCEPTS_PER_DOCUMENT`. -/
def MAX_CONCEPTS_PER_DOCUMENT : ℕ := 20

/-- The filter-then-stable-sort of `_prepare_concepts`: drop concepts below
the confidence threshold, then sort by confidence descending (Python
`list.sort` is stable; `List.mergeSort` matches). -/
def conceptsSorted (concepts : List KGConcept) : List KGConcept :=
  (concepts.filter (fun c => decide (MIN_CONCEPT_CONFIDENCE ≤ c.confidence))).mergeSort
    (fun a b => decide (b.confidence ≤ a.confidence))

/-- `_prepare_concepts`: filter, sort descending, cap at the maximum count,
and build the upsert dicts. -/
def _prepare_concepts (concepts : List KGConcept) : List ConceptData :=
  ((conceptsSorted concepts).take MAX_CONCEPTS_PER_DOCUMENT).map
    (fun c => { name := c.name, description := c.description, type := c.type,
                confidence := c.confidence })

lemma conceptsSorted_pairwise (concepts : List KGConcept) :
    (conceptsSorted concepts).Pairwise
      (fun a b => decide (b.confidence ≤ a.confidence) = true) := by
  refine List.sorted_mergeSort ?_ ?_ _
  · intro a b c hab hbc
    exact decide_eq_true (le_trans (of_decide_eq_true hbc) (of_decide_eq_true hab))
  · intro a b
    rcases le_total b.confidence a.confidence with h | h <;> simp [h]

lemma conceptsSorted_mem (concepts : List KGConcept) (c : KGConcept)
    (h : c ∈ conceptsSorted concepts) :
    c ∈ concepts ∧ MIN_CONCEPT_CONFIDENCE ≤ c.confidence := by
  rw [conceptsSorted] at h
  have h2 := (List.mergeSort_perm
    (concepts.filter (fun c => decide (MIN_CONCEPT_CONFIDENCE ≤ c.confidence)))
    (fun a b => decide (b.confidence ≤ a.confidence))).mem_iff.mp h
  rcases List.mem_filter.mp h2 with ⟨h3, h4⟩
  exact ⟨h3, of_decide_eq_true h4⟩

/-- C6: `_prepare_concepts` returns at most `MAX_CONCEPTS_PER_DOCUMENT`
concepts, all with confidence at least the minimum threshold, sorted by
confidence descending, forming a highest-confidence subset of the filtered
candidates (every dropped candidate's confidence is at most every kept one's);
and when all 50 of 50 extracted concepts clear the threshold it returns
exactly 20. -/
theorem prepare_concepts_cap (concepts : List KGConcept) :
    (_prepare_concepts concepts).length ≤ MAX_CONCEPTS_PER_DOCUMENT ∧
    (∀ c ∈ _prepare_concepts concepts, MIN_CONCEPT_CONFIDENCE ≤ c.confidence) ∧
    (_prepare_concepts concepts).Pairwise (fun a b => b.confidence ≤ a.confidence) ∧
    (∀ d ∈ (conceptsSorted concepts).drop MAX_CONCEPTS_PER_DOCUMENT,
      ∀ k ∈ _prepare_concepts concepts, d.confidence ≤ k.confidence) ∧
    ((∀ c ∈ concepts, MIN_CONCEPT_CONFIDENCE < c.confidence) → concepts.length = 50 →
      (_prepare_concepts concepts).length = 20) := by
  refine ⟨?_, ?_, ?_, ?_, ?_⟩
  · rw [_prepare_concepts, List.length_map, List.length_take]
    exact min_le_left _ _
  · intro c hc
    rw [_prepare_concepts] at hc
    obtain ⟨c0, hc0, rfl⟩ := List.mem_map.mp hc
    exact (conceptsSorted_mem concepts c0 (List.mem_of_mem_take hc0)).2
  · rw [_prepare_concepts, List.pairwise_map]
    refine List.Pairwise.imp (fun h => of_decide_eq_true h) ?_
    exact ((conceptsSorted_pairwise concepts).sublist (List.take_sublist _ _))
  · intro d hd k hk
    rw [_prepare_concepts] at hk
    obtain ⟨k0, hk0, rfl⟩ := List.mem_map.mp hk
    have hsplit := (conceptsSorted_pairwise concepts)
    rw [← List.take_append_drop MAX_CONCEPTS_PER_DOCUMENT (conceptsSorted concepts),
      List.pairwise_append] at hsplit
    exact of_decide_eq_true (hsplit.2.2 k0 hk0 d hd)
  · intro hall hlen
    have hfe : concepts.filter (fun c => decide (MIN_CONCEPT_CONFIDENCE ≤ c.confidence))
        = concepts := by
      rw [List.filter_eq_self]
      intro a ha
      exact decide_eq_true (le_of_lt (hall a ha))
    rw [_prepare_concepts, List.length_map, List.length_take, conceptsSorted, hfe]
    rw [(List.mergeSort_perm concepts _).length_eq, hlen]
    rfl

/-- C6 witness: the cap theorem applied to 50 identical concepts of
confidence 0.9 (all above the threshold): exactly 20 are returned. -/
theorem prepare_concepts_cap_witness :
    (_prepare_concepts (List.replicate 50 ⟨"c", "d", "t", 9/10⟩)).length = 20 :=
  (prepare_concepts_cap _).2.2.2.2
    (by
      intro c hc
      rw [List.eq_of_mem_replicate hc]
      norm_num [MIN_CONCEPT_CONFIDENCE])
    (by simp)
